import Mathlib

/-!
Verification development for the multilingual PDF outline extractor
(`extract_outline.py`).  The core of the program is a pure pipeline over a
list of text fragments; it is embedded here as executable Lean definitions:

* a small regular-expression engine (Brzozowski derivatives) interpreting the
  anchored patterns that the extractor evaluates with `re.match`;
* the pattern library, the non-heading filter, the heading classifier, the
  title selector and the outline builder, translated function by function.

Python floats are modelled by rationals.  Rational division, addition and the
numeric literals are written with `Rat.divInt` so that every definition
evaluates inside the kernel; lemmas `ratDiv_eq_div`, `ratAdd_eq_add` and the
threshold lemmas relate them to the ordinary field operations and literals.
The stable Python sort is modelled by the stable `List.insertionSort`.
-/

set_option maxRecDepth 10000

namespace PdfSpec

/-! ## A regular-expression engine with character-class atoms

The Python patterns use character classes over the whole of Unicode (ranges,
negated classes, the dot), so atoms are characteristic predicates rather than
single characters.  Matching is decided by Brzozowski derivatives; the
inductive relation `RMatch` gives the intended language semantics and
`rmatch_iff` proves that the two agree. -/

inductive RE where
  | zero : RE
  | eps : RE
  | cls : (Char → Bool) → RE
  | alt : RE → RE → RE
  | cat : RE → RE → RE
  | star : RE → RE

def nullable : RE → Bool
  | .zero => false
  | .eps => true
  | .cls _ => false
  | .alt r1 r2 => nullable r1 || nullable r2
  | .cat r1 r2 => nullable r1 && nullable r2
  | .star _ => true

/-- Alternation, pruning the empty language to keep derivatives small. -/
def mkAlt : RE → RE → RE
  | .zero, r => r
  | .eps, .zero => .eps
  | .cls p, .zero => .cls p
  | .alt r1 r2, .zero => .alt r1 r2
  | .cat r1 r2, .zero => .cat r1 r2
  | .star r, .zero => .star r
  | r1, r2 => .alt r1 r2

/-- Concatenation, pruning the empty language and the empty word. -/
def mkCat : RE → RE → RE
  | .zero, _ => .zero
  | .eps, .zero => .zero
  | .cls _, .zero => .zero
  | .alt _ _, .zero => .zero
  | .cat _ _, .zero => .zero
  | .star _, .zero => .zero
  | .eps, r => r
  | .cls p, .eps => .cls p
  | .alt r1 r2, .eps => .alt r1 r2
  | .cat r1 r2, .eps => .cat r1 r2
  | .star r, .eps => .star r
  | r1, r2 => .cat r1 r2

def deriv : RE → Char → RE
  | .zero, _ => .zero
  | .eps, _ => .zero
  | .cls p, c => if p c then .eps else .zero
  | .alt r1 r2, c => mkAlt (deriv r1 c) (deriv r2 c)
  | .cat r1 r2, c =>
      if nullable r1 then mkAlt (mkCat (deriv r1 c) r2) (deriv r2 c)
      else mkCat (deriv r1 c) r2
  | .star r, c => mkCat (deriv r c) (.star r)

/-- Executable matcher: a word is accepted when the iterated derivative is
nullable. -/
def rmatch (r : RE) (s : List Char) : Bool := nullable (s.foldl deriv r)

/-- Language semantics of `RE`. -/
inductive RMatch : RE → List Char → Prop where
  | eps : RMatch .eps []
  | cls {p : Char → Bool} {c : Char} : p c = true → RMatch (.cls p) [c]
  | altL {r1 r2 : RE} {s : List Char} : RMatch r1 s → RMatch (.alt r1 r2) s
  | altR {r1 r2 : RE} {s : List Char} : RMatch r2 s → RMatch (.alt r1 r2) s
  | cat {r1 r2 : RE} {s1 s2 : List Char} :
      RMatch r1 s1 → RMatch r2 s2 → RMatch (.cat r1 r2) (s1 ++ s2)
  | starNil {r : RE} : RMatch (.star r) []
  | starCons {r : RE} {s1 s2 : List Char} :
      RMatch r s1 → RMatch (.star r) s2 → RMatch (.star r) (s1 ++ s2)

/-! ## Character classes

Characteristic predicates for the character classes appearing in the Python
patterns.  Python evaluates the patterns on `str` values; `\d` is read here
as the ASCII digit range (Python would additionally accept other Unicode
decimal digits) and `\s` as the Python whitespace set. -/

def pyIsDigit (c : Char) : Bool := '0' ≤ c && c ≤ '9'

def pyIsSpace (c : Char) : Bool :=
  c == ' ' || c == '\t' || c == '\n' || c == '\x0b' || c == '\x0c' || c == '\r' ||
  ('\x1c' ≤ c && c ≤ '\x1f') || c == '\x85' || c == '\xa0' || c == '\u1680' ||
  ('\u2000' ≤ c && c ≤ '\u200a') || c == '\u2028' || c == '\u2029' ||
  c == '\u202f' || c == '\u205f' || c == '\u3000'

def latinUpper (c : Char) : Bool := 'A' ≤ c && c ≤ 'Z'

def latinLower (c : Char) : Bool := 'a' ≤ c && c ≤ 'z'

def inRange (lo hi c : Char) : Bool := lo ≤ c && c ≤ hi

/-- The class of ASCII uppercase letters under IGNORECASE: the ASCII letters
together with the two non-ASCII characters whose case fold is an ASCII
letter (U+017F latin small letter long s and U+212A kelvin sign). -/
def azic (c : Char) : Bool :=
  latinUpper c || latinLower c || c == '\u017f' || c == '\u212a'

/-- The class of the roman-numeral letters I, V, X under IGNORECASE. -/
def ivxic (c : Char) : Bool :=
  c == 'I' || c == 'V' || c == 'X' || c == 'i' || c == 'v' || c == 'x'

/-- The uppercase class of the all-caps pattern: ASCII uppercase, Latin
extended U+00C0 to U+017F, Cyrillic U+0400 to U+04FF. -/
def capsLatinCyr (c : Char) : Bool :=
  latinUpper c || inRange '\u00c0' '\u017f' c || inRange '\u0400' '\u04ff' c

/-- Kana and CJK ideographs: U+3040 to U+309F, U+30A0 to U+30FF, U+4E00 to
U+9FAF. -/
def cjkKana (c : Char) : Bool :=
  inRange '\u3040' '\u309f' c || inRange '\u30a0' '\u30ff' c ||
  inRange '\u4e00' '\u9faf' c

/-- First class of the title-case pattern: ASCII uppercase or Latin extended
U+00C0 to U+017F. -/
def tcFirst (c : Char) : Bool := latinUpper c || inRange '\u00c0' '\u017f' c

/-- Second class of the title-case pattern: ASCII lowercase, Latin extended,
Cyrillic, kana or CJK. -/
def tcSecond (c : Char) : Bool :=
  latinLower c || inRange '\u00c0' '\u017f' c || inRange '\u0400' '\u04ff' c ||
  cjkKana c

/-- The class of Chinese numerals or digits of the Chinese chapter
pattern. -/
def cnNum (c : Char) : Bool :=
  "一二三四五六七八九十".toList.contains c || pyIsDigit c

/-- Python `str.lower`, restricted to ASCII, Latin-1 and basic Cyrillic
letters (the scripts in which the program performs cased comparisons). -/
def pyLowerChar (c : Char) : Char :=
  if latinUpper c then Char.ofNat (c.toNat + 32)
  else if 'À' ≤ c && c ≤ 'Þ' && c != '×' then Char.ofNat (c.toNat + 32)
  else if 'А' ≤ c && c ≤ 'Я' then Char.ofNat (c.toNat + 32)
  else if 'Ѐ' ≤ c && c ≤ 'Џ' then Char.ofNat (c.toNat + 80)
  else c

/-- Partial inverse of `pyLowerChar`, used to build the case-insensitive
literals of the pattern library. -/
def pyUpperChar (c : Char) : Char :=
  if latinLower c then Char.ofNat (c.toNat - 32)
  else if 'à' ≤ c && c ≤ 'þ' && c != '÷' then Char.ofNat (c.toNat - 32)
  else if 'а' ≤ c && c ≤ 'я' then Char.ofNat (c.toNat - 32)
  else if 'ѐ' ≤ c && c ≤ 'џ' then Char.ofNat (c.toNat - 80)
  else c

def pyLower (s : String) : String := ⟨s.toList.map pyLowerChar⟩

/-- Python `str.strip`: remove leading and trailing whitespace. -/
def pyStrip (s : String) : String :=
  ⟨((s.toList.dropWhile pyIsSpace).reverse.dropWhile pyIsSpace).reverse⟩

/-- Python substring containment `w in s`. -/
def subStr (w : List Char) : List Char → Bool
  | [] => w.isEmpty
  | c :: rest => w.isPrefixOf (c :: rest) || subStr w rest

/-! ## Kernel-computable rational arithmetic

`Rat.div` and `Rat.add` do not reduce inside the kernel, so the embedding
uses the following `Rat.divInt` formulations, identified with the field
operations by `ratDiv_eq_div` and `ratAdd_eq_add`. -/

def ratDiv (a b : ℚ) : ℚ := Rat.divInt (a.num * (b.den : ℤ)) ((a.den : ℤ) * b.num)

def ratAdd (a b : ℚ) : ℚ :=
  Rat.divInt (a.num * (b.den : ℤ) + b.num * (a.den : ℤ)) ((a.den : ℤ) * (b.den : ℤ))

def ratSum (l : List ℚ) : ℚ := List.foldl ratAdd 0 l

/-! ## The pattern library

Each definition below is the abstract syntax of one Python pattern, written
with the combinators that follow.  `re.match` performs anchored-prefix
matching: patterns that may stop in the middle of the string are therefore
concatenated with `anyStar`, and a trailing end anchor is rendered by
`dollar` (the rest of the string is empty or one final newline, which is
the Python semantics of the dollar anchor outside MULTILINE mode). -/

def chr (c : Char) : RE := .cls (fun x => x == c)

/-- One letter of a case-insensitive literal. -/
def icChr (c : Char) : RE := .cls (fun x => x == pyLowerChar c || x == pyUpperChar c)

/-- A case-insensitive literal word. -/
def icStr (s : String) : RE := s.toList.foldr (fun c r => .cat (icChr c) r) .eps

def plus (r : RE) : RE := .cat r (.star r)

def opt (r : RE) : RE := .alt .eps r

/-- At least three repetitions. -/
def rep3 (r : RE) : RE := .cat r (.cat r (plus r))

/-- The dot: any character except newline. -/
def dotc : RE := .cls (fun c => c != '\n')

def dotStar : RE := .star dotc

def anyStar : RE := .star (.cls (fun _ => true))

/-- Trailing dollar anchor. -/
def dollar : RE := .alt .eps (chr '\n')

def wsStar : RE := .star (.cls pyIsSpace)

def wsPlus : RE := plus (.cls pyIsSpace)

def digits : RE := plus (.cls pyIsDigit)

/-- Numbered pattern 1: decimal enumerations such as 1., 1.1, 1.1.1
followed by a non-digit. -/
def np1 : RE :=
  .cat (plus (.cat digits (.cat (opt (chr '.')) wsStar)))
    (.cat (.cls (fun c => !pyIsDigit c)) (.cat dotStar dollar))

/-- Numbered pattern 2: roman-numeral enumerations, IGNORECASE. -/
def np2 : RE :=
  .cat (plus (.cat (plus (.cls ivxic)) (.cat (opt (chr '.')) wsStar)))
    (.cat dotStar dollar)

/-- Numbered pattern 3: alphabetic enumerations A., B., C., IGNORECASE. -/
def np3 : RE :=
  .cat (plus (.cat (.cls azic) (.cat (opt (chr '.')) wsStar)))
    (.cat dotStar dollar)

/-- Numbered pattern 4: parenthesised numbers. -/
def np4 : RE :=
  .cat (chr '(') (.cat digits (.cat (chr ')') (.cat wsStar (.cat dotStar dollar))))

/-- Numbered pattern 5: bracketed numbers. -/
def np5 : RE :=
  .cat (chr '[') (.cat digits (.cat (chr ']') (.cat wsStar (.cat dotStar dollar))))

/-- Three chapter keywords in alternation. -/
def kw3 (a b c : String) : RE := .alt (icStr a) (.alt (icStr b) (icStr c))

/-- A decimal or roman numeral after a chapter keyword. -/
def chapterNum : RE := .alt digits (plus (.cls ivxic))

/-- Keyword, whitespace, numeral; prefix match. -/
def chapterPat (a b c : String) : RE :=
  .cat (kw3 a b c) (.cat wsPlus (.cat chapterNum anyStar))

def cs1 : RE := chapterPat "Chapter" "Section" "Part"

def cs2 : RE := chapterPat "Kapitel" "Abschnitt" "Teil"

def cs3 : RE := chapterPat "Chapitre" "Section" "Partie"

def cs4 : RE := chapterPat "Capítulo" "Sección" "Parte"

def cs5 : RE := chapterPat "Capitolo" "Sezione" "Parte"

def cs6 : RE := chapterPat "Capítulo" "Seção" "Parte"

/-- One Japanese chapter form: 第, digits, then the given counter. -/
def jpChap (k : Char) : RE := .cat (chr '第') (.cat digits (chr k))

def cs7 : RE := .cat (.alt (jpChap '章') (.alt (jpChap '節') (jpChap '部'))) anyStar

/-- One Chinese chapter form: 第, Chinese numerals or digits, counter. -/
def cnChap (k : Char) : RE := .cat (chr '第') (.cat (plus (.cls cnNum)) (chr k))

def cs8 : RE := .cat (.alt (cnChap '章') (cnChap '节')) anyStar

/-- All-caps pattern for Latin and Cyrillic: at least three uppercase
letters, optionally repeated as whitespace-separated words, then optional
whitespace and the end anchor. -/
def ac1 : RE :=
  .cat (rep3 (.cls capsLatinCyr))
    (.cat (.star (.cat wsPlus (rep3 (.cls capsLatinCyr)))) (.cat wsStar dollar))

/-- All-caps pattern for Japanese and Chinese. -/
def ac2 : RE := .cat (rep3 (.cls cjkKana)) (.cat wsStar dollar)

/-- Title-case pattern: an initial capital, a following letter, then at
least two more characters up to the end anchor. -/
def tc1 : RE :=
  .cat (.cls tcFirst) (.cat (.cls tcSecond) (.cat dotc (.cat dotc (.cat dotStar dollar))))

/-- Override pattern for H1: digits, a period, whitespace. -/
def dec1RE : RE := .cat digits (.cat (chr '.') (.cat wsPlus anyStar))

/-- Override pattern for H2: digits, period, digits, whitespace. -/
def dec2RE : RE :=
  .cat digits (.cat (chr '.') (.cat digits (.cat wsPlus anyStar)))

/-- Override pattern for H3. -/
def dec3RE : RE :=
  .cat digits (.cat (chr '.')
    (.cat digits (.cat (chr '.') (.cat digits (.cat wsPlus anyStar)))))

/-- Leading decimal numbering, as tested by the title selector. -/
def titleNumRE : RE := .cat digits (.cat (chr '.') anyStar)

/-- Localised page-marker: Page (IGNORECASE), 页, 頁 or digits, followed by
a whitespace character or the end anchor. -/
def pageMarkerRE : RE :=
  .cat (.alt (icStr "Page") (.alt (chr '页') (.alt (chr '頁') digits)))
    (.alt (.cat (.cls pyIsSpace) anyStar) dollar)

/-- Pure numbers or dates: only digits, whitespace, hyphens, slashes and
periods. -/
def numericChar (c : Char) : Bool :=
  pyIsDigit c || pyIsSpace c || c == '-' || c == '/' || c == '.'

def numericRE : RE := .cat (plus (.cls numericChar)) dollar

/-- `re.match` of one pattern against a string. -/
def pymatch (r : RE) (text : String) : Bool := rmatch r text.toList

def numbered_patterns : List RE := [np1, np2, np3, np4, np5]

def chapter_section_patterns : List RE := [cs1, cs2, cs3, cs4, cs5, cs6, cs7, cs8]

def all_caps_patterns : List RE := [ac1, ac2]

def title_case_patterns : List RE := [tc1]

/-! ## Data model -/

/-- One text fragment as produced by the document-parsing collaborator:
normalized text, 1-based page number, font size, style-flag bitset, font
family name and bounding box. -/
structure Block where
  text : String
  page : Nat
  font_size : ℚ
  font_flags : Nat
  font_name : String
  bbox : ℚ × ℚ × ℚ × ℚ
deriving DecidableEq

/-- One outline entry: level tag (the strings H1, H2, H3), text and page. -/
structure HeadingEntry where
  level : String
  text : String
  page : Nat
deriving DecidableEq

structure OutlineResult where
  title : String
  outline : List HeadingEntry
deriving DecidableEq

/-! ## The extractor, function by function -/

/-- Dominant-script detection: count characters of the first fragments in
four disjoint Unicode buckets and return the first bucket with the highest
count (dictionary insertion order latin, cyrillic, cjk, arabic). -/
def detect_language (text_blocks : List Block) : String :=
  let sample := String.intercalate " "
    (((text_blocks.take 50).filter (fun b => b.page ≤ 3)).map (fun b => b.text))
  let latin := (sample.toList.filter (fun c => ' ' ≤ c && c ≤ '\u024f')).length
  let cyrillic := (sample.toList.filter (fun c => '\u0400' ≤ c && c ≤ '\u04ff')).length
  let cjk := (sample.toList.filter (fun c => '\u3040' ≤ c && c ≤ '\u9faf')).length
  let arabic := (sample.toList.filter (fun c => '\u0600' ≤ c && c ≤ '\u06ff')).length
  let pairs := [("latin", latin), ("cyrillic", cyrillic), ("cjk", cjk), ("arabic", arabic)]
  (pairs.foldl (fun best p => if p.2 > best.2 then p else best) ("latin", latin)).1

/-- Bold bit of the span style flags. -/
def is_bold (font_flags : Nat) : Bool := font_flags &&& 2 ^ 4 != 0

/-- Try the pattern families in their fixed order and report the first
matching family. -/
def matches_heading_pattern (text : String) (language : String) : Bool × String :=
  if numbered_patterns.any (fun p => pymatch p text) then (true, "numbered")
  else if chapter_section_patterns.any (fun p => pymatch p text) then (true, "chapter_section")
  else if all_caps_patterns.any (fun p => pymatch p text) then (true, "all_caps")
  else if title_case_patterns.any (fun p => pymatch p text) then (true, "title_case")
  else (false, "none")

/-- The multilingual stop-word lists. -/
def non_heading_words : List (String × List String) :=
  [("english", ["abstract", "introduction", "contents", "table of contents",
                "references", "bibliography"]),
   ("german", ["zusammenfassung", "einleitung", "inhaltsverzeichnis",
               "literatur", "bibliographie"]),
   ("french", ["résumé", "introduction", "table des matières", "références",
               "bibliographie"]),
   ("spanish", ["resumen", "introducción", "índice", "referencias",
                "bibliografía"]),
   ("japanese", ["要約", "概要", "目次", "参考文献"]),
   ("chinese", ["摘要", "简介", "目录", "参考文献"]),
   ("arabic", ["ملخص", "مقدمة", "فهرس", "مراجع"])]

/-- The non-heading filter: stop-word substring in the lower-cased text,
length outside 3 to 200, or a pure number or date. -/
def is_likely_non_heading (text : String) : Bool :=
  let text_lower := pyLower text
  non_heading_words.any (fun lw => lw.2.any (fun word => subStr word.toList text_lower.toList)) ||
  (text.length < 3 || text.length > 200) ||
  pymatch numericRE text

/-- The score of the classifier: pattern-family points, font-ratio band
points and the bold bonus.  The thresholds 1.8, 1.5, 1.2 and 1.1 are written
as `Rat.divInt` fractions; see the literal lemmas above. -/
def headingScore (text : String) (font_size : ℚ) (isBold : Bool)
    (avg_font_size : ℚ) (language : String) : ℕ :=
  let pattern_type := (matches_heading_pattern text language).2
  let font_size_ratio : ℚ :=
    if avg_font_size > 0 then ratDiv font_size avg_font_size else 1
  (if pattern_type == "numbered" then 4
   else if pattern_type == "chapter_section" then 5
   else if pattern_type == "all_caps" then 3
   else if pattern_type == "title_case" then 2
   else 0) +
  (if font_size_ratio > Rat.divInt 18 10 then 4
   else if font_size_ratio > Rat.divInt 15 10 then 3
   else if font_size_ratio > Rat.divInt 12 10 then 2
   else if font_size_ratio > Rat.divInt 11 10 then 1
   else 0) +
  (if isBold then 2 else 0)

/-- The heading classifier: filter, then the three decimal-numbering
overrides, then the chapter-section rule, then the score thresholds. -/
def classify_heading_level (text : String) (font_size : ℚ) (isBold : Bool)
    (avg_font_size max_font_size : ℚ) (language : String) : Option String :=
  if is_likely_non_heading text then none
  else
    let score := headingScore text font_size isBold avg_font_size language
    if pymatch dec1RE text then some "H1"
    else if pymatch dec2RE text then some "H2"
    else if pymatch dec3RE text then some "H3"
    else if (matches_heading_pattern text language).2 == "chapter_section" then some "H1"
    else if score ≥ 6 then some "H1"
    else if score ≥ 4 then some "H2"
    else if score ≥ 3 then some "H3"
    else none

/-- Sort order of the title candidates: descending font size, ties broken by
ascending top coordinate of the bounding box.  Python sorts stably; the
embedding uses the stable insertion sort with the corresponding total
preorder. -/
def titleRank (b1 b2 : Block) : Prop :=
  b2.font_size < b1.font_size ∨ (b1.font_size = b2.font_size ∧ b1.bbox.2.1 ≤ b2.bbox.2.1)

instance : DecidableRel titleRank := fun a b => by unfold titleRank; infer_instance

def first_page_blocks_of (text_blocks : List Block) : List Block :=
  text_blocks.filter (fun b => b.page ≤ 2)

def titleCands (text_blocks : List Block) : List Block :=
  List.insertionSort titleRank (first_page_blocks_of text_blocks)

/-- The candidate checks of the main title scan: not filtered, not a page
marker, length strictly between 5 and 150, not a numbered heading. -/
def titleCandOk (b : Block) : Bool :=
  let text := pyStrip b.text
  !is_likely_non_heading text &&
  !pymatch pageMarkerRE text &&
  (decide (5 < text.length) && decide (text.length < 150) && !pymatch titleNumRE text)

/-- Title selection: scan the top 15 ranked candidates of pages 1 and 2,
then fall back to the first candidate of moderate length (the Python loop
iterates the list sorted in place), then to the fixed sentinel. -/
def extract_title (text_blocks : List Block) (language : String) : String :=
  if first_page_blocks_of text_blocks = [] then "Untitled Document"
  else
    match ((titleCands text_blocks).take 15).find? titleCandOk with
    | some b => pyStrip b.text
    | none =>
        match (titleCands text_blocks).find?
            (fun b => decide (10 < (pyStrip b.text).length) &&
              decide ((pyStrip b.text).length < 100)) with
        | some b => pyStrip b.text
        | none => "Untitled Document"

def avg_font_size_of (text_blocks : List Block) : ℚ :=
  let font_sizes := text_blocks.map (fun b => b.font_size)
  if font_sizes = [] then 12 else ratDiv (ratSum font_sizes) (font_sizes.length : ℚ)

def max_font_size_of (text_blocks : List Block) : ℚ :=
  ((text_blocks.map (fun b => b.font_size)).max?).getD 12

/-- The heading-collection loop of the outline builder: iterate fragments in
order, skip empty or already-seen text, classify, record accepted entries
and remember their text.  The Python set of seen texts is modelled by a
list queried by membership. -/
def buildOutline (avg_font_size max_font_size : ℚ) (language : String) :
    List Block → List String → List HeadingEntry
  | [], _ => []
  | block :: rest, seen =>
      let text := pyStrip block.text
      if seen.contains text || text == "" then
        buildOutline avg_font_size max_font_size language rest seen
      else
        match classify_heading_level text block.font_size (is_bold block.font_flags)
            avg_font_size max_font_size language with
        | some level =>
            { level := level, text := text, page := block.page } ::
              buildOutline avg_font_size max_font_size language rest (text :: seen)
        | none => buildOutline avg_font_size max_font_size language rest seen

/-- Lexicographic comparison of character lists by code point: the Python
string order, used for the level component of the sort key. -/
def strLe : List Char → List Char → Bool
  | [], _ => true
  | _ :: _, [] => false
  | a :: as, b :: bs => if a < b then true else if b < a then false else strLe as bs

/-- Ascending (page, level) with levels compared as strings: the sort key of
the outline. -/
def entryRank (e1 e2 : HeadingEntry) : Prop :=
  e1.page < e2.page ∨ (e1.page = e2.page ∧ strLe e1.level.toList e2.level.toList = true)

instance : DecidableRel entryRank := fun a b => by unfold entryRank; infer_instance

/-- The accepted headings of a document, in scan order. -/
def acceptedOutline (text_blocks : List Block) : List HeadingEntry :=
  buildOutline (avg_font_size_of text_blocks) (max_font_size_of text_blocks)
    (detect_language text_blocks) text_blocks []

/-- The accepted headings sorted by (page, level). -/
def sortedOutlineOf (text_blocks : List Block) : List HeadingEntry :=
  List.insertionSort entryRank (acceptedOutline text_blocks)

/-- The outline builder: empty input short-circuits to the sentinel result;
otherwise select the title, collect, sort and cap the headings. -/
def extract_outline (text_blocks : List Block) : OutlineResult :=
  if text_blocks = [] then { title := "Untitled Document", outline := [] }
  else
    let title := extract_title text_blocks (detect_language text_blocks)
    let outline := sortedOutlineOf text_blocks
    { title := title,
      outline := if outline.length > 100 then outline.take 100 else outline }

/-- Helper constructor for concrete fragments used in the witnesses. -/
def tBlk (t : String) (p : Nat) (fs : ℚ) (fl : Nat) (bb : ℚ) : Block :=
  { text := t, page := p, font_size := fs, font_flags := fl, font_name := "F", bbox := (0, bb, 1, 1) }

/-- The predicate of the first fragment producing the outline entry with
text t: stripped text equal to t and accepted by the classifier. -/
def acceptPred (avg_font_size max_font_size : ℚ) (language : String) (t : String)
    (b : Block) : Bool :=
  (pyStrip b.text == t) &&
    (classify_heading_level (pyStrip b.text) b.font_size (is_bold b.font_flags)
      avg_font_size max_font_size language).isSome

/-- Fragments of the C4 counterexample: the best-ranked candidate Intro
passes the three checks named by the claim but fails the length check. -/
def c4Blocks : List Block := [tBlk "Intro" 1 30 0 0, tBlk "Annual Report" 1 20 0 10]

/-- A fragment list whose best-ranked candidate passes all four checks. -/
def c4GoodBlocks : List Block := [tBlk "Annual Report" 1 20 0 10]

/-- Two fragments with identical text, the first occurrence on page 2. -/
def c8Blocks : List Block := [tBlk "1.1 Alpha" 2 12 0 0, tBlk "1.1 Alpha" 1 12 0 0]

/-- Two accepted fragments arriving in descending page order. -/
def c9Blocks : List Block := [tBlk "1.1 Beta" 2 12 0 0, tBlk "1.1 Alpha" 1 12 0 0]

/-! ## Correctness of the matcher -/

theorem not_rmatch_zero {s : List Char} (h : RMatch .zero s) : False := by
  cases h

theorem eps_elim {s : List Char} (h : RMatch .eps s) : s = [] := by
  cases h; rfl

theorem cat_elim {r1 r2 : RE} {s : List Char} (h : RMatch (.cat r1 r2) s) :
    ∃ s1 s2, s = s1 ++ s2 ∧ RMatch r1 s1 ∧ RMatch r2 s2 := by
  cases h with
  | cat h1 h2 => exact ⟨_, _, rfl, h1, h2⟩

theorem alt_elim {r1 r2 : RE} {s : List Char} (h : RMatch (.alt r1 r2) s) :
    RMatch r1 s ∨ RMatch r2 s := by
  cases h with
  | altL h => exact Or.inl h
  | altR h => exact Or.inr h

theorem cls_elim {p : Char → Bool} {s : List Char} (h : RMatch (.cls p) s) :
    ∃ c, s = [c] ∧ p c = true := by
  cases h with
  | cls hp => exact ⟨_, rfl, hp⟩

theorem nullable_of_nil {r : RE} {s : List Char} (h : RMatch r s) (hs : s = []) :
    nullable r = true := by
  induction h with
  | eps => rfl
  | cls _ => simp at hs
  | altL _ ih => simp [nullable, ih hs]
  | altR _ ih => simp [nullable, ih hs]
  | cat _ _ ih1 ih2 =>
      rcases List.append_eq_nil.mp hs with ⟨h1, h2⟩
      simp [nullable, ih1 h1, ih2 h2]
  | starNil => rfl
  | starCons _ _ _ _ => rfl

theorem nil_of_nullable {r : RE} (h : nullable r = true) : RMatch r [] := by
  induction r with
  | zero => simp [nullable] at h
  | eps => exact .eps
  | cls p => simp [nullable] at h
  | alt r1 r2 ih1 ih2 =>
      rcases Bool.or_eq_true_iff.mp h with h1 | h2
      · exact .altL (ih1 h1)
      · exact .altR (ih2 h2)
  | cat r1 r2 ih1 ih2 =>
      rcases Bool.and_eq_true_iff.mp h with ⟨h1, h2⟩
      exact RMatch.cat (ih1 h1) (ih2 h2)
  | star r _ => exact .starNil

theorem RMatch_alt_of_mkAlt {r1 r2 : RE} {s : List Char}
    (h : RMatch (mkAlt r1 r2) s) : RMatch (.alt r1 r2) s := by
  cases r1 <;> cases r2 <;>
    first
      | exact .altR h
      | exact .altL h
      | exact h

theorem mkAlt_of_RMatch_alt {r1 r2 : RE} {s : List Char}
    (h : RMatch (.alt r1 r2) s) : RMatch (mkAlt r1 r2) s := by
  rcases alt_elim h with h1 | h1 <;> clear h <;>
    cases r1 <;> cases r2 <;>
      first
        | exact (not_rmatch_zero h1).elim
        | exact h1
        | exact .altL h1
        | exact .altR h1

theorem RMatch_mkCat {r1 r2 : RE} {s1 s2 : List Char}
    (h1 : RMatch r1 s1) (h2 : RMatch r2 s2) : RMatch (mkCat r1 r2) (s1 ++ s2) := by
  cases r1 <;> cases r2 <;>
    first
      | exact (not_rmatch_zero h1).elim
      | exact (not_rmatch_zero h2).elim
      | (rw [eps_elim h1, List.nil_append]; exact h2)
      | (rw [eps_elim h2, List.append_nil]; exact h1)
      | exact RMatch.cat h1 h2

theorem mkCat_elim {r1 r2 : RE} {s : List Char} (h : RMatch (mkCat r1 r2) s) :
    ∃ s1 s2, s = s1 ++ s2 ∧ RMatch r1 s1 ∧ RMatch r2 s2 := by
  cases r1 <;> cases r2 <;>
    first
      | exact (not_rmatch_zero h).elim
      | exact ⟨[], _, rfl, .eps, h⟩
      | exact ⟨_, [], (List.append_nil _).symm, h, .eps⟩
      | exact cat_elim h

theorem star_decomp {r : RE} {s : List Char} (h : RMatch (.star r) s) :
    s = [] ∨ ∃ s1 s2, s = s1 ++ s2 ∧ s1 ≠ [] ∧ RMatch r s1 ∧ RMatch (.star r) s2 := by
  generalize hq : RE.star r = q at h
  induction h with
  | eps => simp at hq
  | cls _ => simp at hq
  | altL _ _ => simp at hq
  | altR _ _ => simp at hq
  | cat _ _ _ _ => simp at hq
  | starNil => exact Or.inl rfl
  | starCons h1 h2 ih1 ih2 =>
      cases hq
      rename_i s1 s2
      rcases eq_or_ne s1 ([] : List Char) with h1e | h1e
      · rw [h1e, List.nil_append]
        exact ih2 rfl
      · exact Or.inr ⟨s1, s2, rfl, h1e, h1, h2⟩

theorem RMatch_deriv {r : RE} {c : Char} {s : List Char}
    (h : RMatch r (c :: s)) : RMatch (deriv r c) s := by
  induction r generalizing s with
  | zero => exact (not_rmatch_zero h).elim
  | eps => exact absurd (eps_elim h) (by simp)
  | cls p =>
      rcases cls_elim h with ⟨c1, hc, hp⟩
      injection hc with hc1 hc2
      subst hc1
      subst hc2
      simp only [deriv, hp, if_true]
      exact .eps
  | alt r1 r2 ih1 ih2 =>
      apply mkAlt_of_RMatch_alt
      rcases alt_elim h with h1 | h1
      · exact .altL (ih1 h1)
      · exact .altR (ih2 h1)
  | cat r1 r2 ih1 ih2 =>
      rcases cat_elim h with ⟨s1, s2, hs, h1, h2⟩
      cases s1 with
      | nil =>
          have hn : nullable r1 = true := nullable_of_nil h1 rfl
          rw [List.nil_append] at hs
          simp only [deriv, hn, if_true]
          exact mkAlt_of_RMatch_alt (.altR (ih2 (hs ▸ h2)))
      | cons c1 s1' =>
          rw [List.cons_append] at hs
          injection hs with hc hs'
          subst hc
          have hd1 : RMatch (deriv r1 c) s1' := ih1 h1
          rw [hs']
          by_cases hn : nullable r1
          · simp only [deriv, hn, if_true]
            exact mkAlt_of_RMatch_alt (.altL (RMatch_mkCat hd1 h2))
          · simp only [deriv, Bool.not_eq_true] at hn ⊢
            rw [hn]
            simp only [Bool.false_eq_true, if_false]
            exact RMatch_mkCat hd1 h2
  | star r ih =>
      rcases star_decomp h with he | ⟨s1, s2, hs, hne, h1, h2⟩
      · simp at he
      · cases s1 with
        | nil => exact absurd rfl hne
        | cons c1 s1' =>
            rw [List.cons_append] at hs
            injection hs with hc hs'
            subst hc
            rw [hs']
            simp only [deriv]
            exact RMatch_mkCat (ih h1) h2

theorem RMatch_of_deriv {r : RE} {c : Char} {s : List Char}
    (h : RMatch (deriv r c) s) : RMatch r (c :: s) := by
  induction r generalizing s with
  | zero => exact (not_rmatch_zero h).elim
  | eps => exact (not_rmatch_zero h).elim
  | cls p =>
      by_cases hp : p c
      · simp only [deriv, hp, if_true] at h
        rw [eps_elim h]
        exact .cls hp
      · simp only [deriv, hp, if_false] at h
        exact (not_rmatch_zero h).elim
  | alt r1 r2 ih1 ih2 =>
      rcases alt_elim (RMatch_alt_of_mkAlt h) with h1 | h1
      · exact .altL (ih1 h1)
      · exact .altR (ih2 h1)
  | cat r1 r2 ih1 ih2 =>
      by_cases hn : nullable r1
      · simp only [deriv, hn, if_true] at h
        rcases alt_elim (RMatch_alt_of_mkAlt h) with h3 | h3
        · rcases mkCat_elim h3 with ⟨s1, s2, hs, h1, h2⟩
          rw [hs, ← List.cons_append]
          exact RMatch.cat (ih1 h1) h2
        · have h0 : RMatch r1 [] := nil_of_nullable hn
          have := RMatch.cat h0 (ih2 h3)
          simpa using this
      · simp only [deriv, Bool.not_eq_true] at hn
        rw [deriv] at h
        simp only [hn, Bool.false_eq_true, if_false] at h
        rcases mkCat_elim h with ⟨s1, s2, hs, h1, h2⟩
        rw [hs, ← List.cons_append]
        exact RMatch.cat (ih1 h1) h2
  | star r ih =>
      simp only [deriv] at h
      rcases mkCat_elim h with ⟨s1, s2, hs, h1, h2⟩
      rw [hs, ← List.cons_append]
      exact RMatch.starCons (ih h1) h2

theorem rmatch_iff {r : RE} {s : List Char} : rmatch r s = true ↔ RMatch r s := by
  induction s generalizing r with
  | nil =>
      constructor
      · exact fun h => nil_of_nullable h
      · exact fun h => nullable_of_nil h rfl
  | cons c cs ih =>
      constructor
      · exact fun h => RMatch_of_deriv (ih.mp h)
      · exact fun h => ih.mpr (RMatch_deriv h)

/-- Words all of whose characters satisfy `p` are accepted by `(cls p)*`. -/
theorem star_cls_of_all {p : Char → Bool} {l : List Char}
    (h : ∀ c ∈ l, p c = true) : RMatch (.star (.cls p)) l := by
  induction l with
  | nil => exact .starNil
  | cons c cs ih =>
      have : RMatch (.star (.cls p)) ([c] ++ cs) :=
        .starCons (.cls (h c (by simp))) (ih fun x hx => h x (by simp [hx]))
      simpa using this

/-- Conversely, `(cls p)*` only accepts words all of whose characters satisfy
`p`. -/
theorem all_of_star_cls {p : Char → Bool} {l : List Char}
    (h : RMatch (.star (.cls p)) l) : ∀ c ∈ l, p c = true := by
  generalize hq : RE.star (.cls p) = q at h
  induction h with
  | eps => simp at hq
  | cls _ => simp at hq
  | altL _ _ => simp at hq
  | altR _ _ => simp at hq
  | cat _ _ _ _ => simp at hq
  | starNil => simp
  | starCons h1 h2 ih1 ih2 =>
      cases hq
      intro x hx
      rcases cls_elim h1 with ⟨c, hc, hp⟩
      subst hc
      rcases List.mem_append.mp hx with hx | hx
      · rcases List.mem_singleton.mp hx with rfl
        exact hp
      · exact ih2 rfl x hx

/-! ## The rational helpers agree with the field operations -/

theorem ratDiv_eq_div (a b : ℚ) : ratDiv a b = a / b := by
  rcases eq_or_ne b 0 with rfl | hb
  · simp [ratDiv]
  · have had : ((a.den : ℕ) : ℚ) ≠ 0 := Nat.cast_ne_zero.mpr a.den_nz
    have hbd : ((b.den : ℕ) : ℚ) ≠ 0 := Nat.cast_ne_zero.mpr b.den_nz
    have hbn : ((b.num : ℤ) : ℚ) ≠ 0 := Int.cast_ne_zero.mpr (Rat.num_ne_zero.mpr hb)
    have ha2 : ((a.num : ℤ) : ℚ) = a * ((a.den : ℕ) : ℚ) := by
      have h := Rat.num_div_den a
      rwa [div_eq_iff had] at h
    have hb2 : ((b.num : ℤ) : ℚ) = b * ((b.den : ℕ) : ℚ) := by
      have h := Rat.num_div_den b
      rwa [div_eq_iff hbd] at h
    rw [ratDiv, Rat.divInt_eq_div]
    push_cast
    rw [div_eq_div_iff (mul_ne_zero had hbn) hb, ha2, hb2]
    ring

theorem ratAdd_eq_add (a b : ℚ) : ratAdd a b = a + b := by
  have had : ((a.den : ℤ) : ℚ) ≠ 0 := by
    exact_mod_cast Nat.cast_ne_zero.mpr a.den_nz
  have hbd : ((b.den : ℤ) : ℚ) ≠ 0 := by
    exact_mod_cast Nat.cast_ne_zero.mpr b.den_nz
  rw [ratAdd, Rat.divInt_eq_div]
  conv_rhs => rw [← Rat.num_div_den a, ← Rat.num_div_den b]
  rw [div_add_div _ _ (by exact_mod_cast had) (by exact_mod_cast hbd)]
  push_cast
  ring_nf

/-- The threshold 1.8 of the classifier, in kernel-computable form. -/
theorem divInt_as_literal_18 : Rat.divInt 18 10 = 1.8 := by
  rw [Rat.divInt_eq_div]; norm_num

theorem divInt_as_literal_15 : Rat.divInt 15 10 = 1.5 := by
  rw [Rat.divInt_eq_div]; norm_num

theorem divInt_as_literal_12 : Rat.divInt 12 10 = 1.2 := by
  rw [Rat.divInt_eq_div]; norm_num

theorem divInt_as_literal_11 : Rat.divInt 11 10 = 1.1 := by
  rw [Rat.divInt_eq_div]; norm_num

/-! ## Semantic characterisation of the pure-number pattern -/

theorem numericRE_iff {s : List Char} :
    rmatch numericRE s = true ↔ (s ≠ [] ∧ ∀ c ∈ s, numericChar c = true) := by
  rw [rmatch_iff]
  constructor
  · intro h
    rcases cat_elim h with ⟨s1, s2, hs, h1, h2⟩
    rcases cat_elim h1 with ⟨t1, t2, ht, hc, hstar⟩
    rcases cls_elim hc with ⟨c, rfl, hpc⟩
    have hall1 : ∀ x ∈ t2, numericChar x = true := all_of_star_cls hstar
    have h2' : s2 = [] ∨ s2 = ['\n'] := by
      rcases alt_elim h2 with h2 | h2
      · exact Or.inl (eps_elim h2)
      · rcases cls_elim h2 with ⟨x, rfl, hx⟩
        have hx' : x = '\n' := by simpa using hx
        rw [hx']
        exact Or.inr rfl
    subst hs
    subst ht
    refine ⟨by simp, ?_⟩
    intro x hx
    rcases List.mem_append.mp hx with hx | hx
    · rcases List.mem_append.mp hx with hx | hx
      · rcases List.mem_singleton.mp hx with rfl
        exact hpc
      · exact hall1 x hx
    · rcases h2' with rfl | rfl
      · simp at hx
      · rcases List.mem_singleton.mp hx with rfl
        decide
  · rintro ⟨hne, hall⟩
    cases s with
    | nil => exact absurd rfl hne
    | cons c rest =>
        have hplus : RMatch (plus (.cls numericChar)) ([c] ++ rest) :=
          RMatch.cat (.cls (hall c (by simp)))
            (star_cls_of_all (fun x hx => hall x (by simp [hx])))
        have hcat : RMatch numericRE ((c :: rest) ++ []) :=
          RMatch.cat (by simpa using hplus) (RMatch.altL .eps)
        simpa using hcat

/-! ## Claims -/

/-- C7: the empty fragment sequence yields exactly the sentinel result with
an empty outline, with no error. -/
theorem c7_empty_document :
    extract_outline [] = { title := "Untitled Document", outline := [] } := by decide

/-- C2: the claim states that a chapter-keyword text such as Chapter 3 is
classified H1 through the chapter-section family.  The code disagrees: the
case-insensitive alphabetic-enumeration pattern of the numbered family
(evaluated first) matches every text that starts with an ASCII letter, so
Chapter 3 is reported as family numbered and, at average font size and
without bold, scores 4 and is classified H2, not H1.  This contradicts the
intent documented in the source (the dedicated chapter-section branch and
its comment), which the claim correctly describes. -/
theorem c2_chapter_override_code_bug :
    matches_heading_pattern "Chapter 3" "latin" = (true, "numbered") ∧
    classify_heading_level "Chapter 3" 12 false 12 12 "latin" = some "H2" := by
  constructor
  · decide
  · decide

/-- C1 counterexample: the text 1. Introduction is rejected by the
non-heading filter (its lower-cased form contains the stop word
introduction), so the classifier returns none rather than H1. -/
theorem c1_decimal_override_counterexample :
    classify_heading_level "1. Introduction" 12 false 12 12 "latin" = none := by decide

/-- C1 amended: for every font size, boldness and statistics the decimal
overrides fix the level of texts that pass the non-heading filter
(1. Overview is H1, 1.1 Background is H2, 1.1.1 Detail is H3), while the
1. Introduction instance of the claim is filtered to none. -/
theorem c1_decimal_override_amended (font_size : ℚ) (isBold : Bool)
    (avg_font_size max_font_size : ℚ) (language : String) :
    classify_heading_level "1. Overview" font_size isBold avg_font_size
        max_font_size language = some "H1" ∧
    classify_heading_level "1.1 Background" font_size isBold avg_font_size
        max_font_size language = some "H2" ∧
    classify_heading_level "1.1.1 Detail" font_size isBold avg_font_size
        max_font_size language = some "H3" ∧
    classify_heading_level "1. Introduction" font_size isBold avg_font_size
        max_font_size language = none := by
  refine ⟨?_, ?_, ?_, ?_⟩
  · have h1 : is_likely_non_heading "1. Overview" = false := by decide
    have h2 : pymatch dec1RE "1. Overview" = true := by decide
    simp [classify_heading_level, h1, h2]
  · have h1 : is_likely_non_heading "1.1 Background" = false := by decide
    have h2 : pymatch dec1RE "1.1 Background" = false := by decide
    have h3 : pymatch dec2RE "1.1 Background" = true := by decide
    simp [classify_heading_level, h1, h2, h3]
  · have h1 : is_likely_non_heading "1.1.1 Detail" = false := by decide
    have h2 : pymatch dec1RE "1.1.1 Detail" = false := by decide
    have h3 : pymatch dec2RE "1.1.1 Detail" = false := by decide
    have h4 : pymatch dec3RE "1.1.1 Detail" = true := by decide
    simp [classify_heading_level, h1, h2, h3, h4]
  · have h1 : is_likely_non_heading "1. Introduction" = true := by decide
    simp [classify_heading_level, h1]

/-- C3 counterexample: a string whose first character is an ASCII letter but
which contains an interior newline is matched by no pattern at all, because
the dot of the trailing part of every numbered pattern cannot cross a
newline. -/
theorem c3_numbered_shadowing_counterexample :
    "a,\nb".toList.head? = some 'a' ∧ latinLower 'a' = true ∧
    matches_heading_pattern "a,\nb" "latin" = (false, "none") := by
  refine ⟨rfl, by decide, by decide⟩

/-- C3 amended: for every nonempty newline-free string whose first character
is an ASCII letter, the case-insensitive alphabetic-enumeration pattern of
the numbered family matches, so the family reported is numbered and the
chapter-section, all-caps and title-case families are never reported for
such text. -/
theorem c3_numbered_shadowing_amended (s : String) (language : String) (c : Char)
    (cs : List Char) (hs : s.toList = c :: cs)
    (hc : (latinUpper c || latinLower c) = true) (hnl : '\n' ∉ s.toList) :
    matches_heading_pattern s language = (true, "numbered") := by
  have hazic : azic c = true := by
    rcases Bool.or_eq_true_iff.mp hc with h | h <;> simp [azic, h]
  have hiter : RMatch (.cat (.cls azic) (.cat (opt (chr '.')) wsStar)) [c] := by
    have : RMatch (.cat (.cls azic) (.cat (opt (chr '.')) wsStar)) ([c] ++ ([] ++ [])) :=
      RMatch.cat (.cls hazic) (RMatch.cat (.altL .eps) .starNil)
    simpa using this
  have hloop : RMatch (plus (.cat (.cls azic) (.cat (opt (chr '.')) wsStar))) ([c] ++ []) :=
    RMatch.cat hiter .starNil
  have hnl' : ∀ x ∈ cs, (x != '\n') = true := by
    intro x hx
    have : x ≠ '\n' := by
      intro hxe
      exact hnl (by rw [hs]; exact List.mem_cons_of_mem c (hxe ▸ hx))
    simpa using this
  have htail : RMatch (.cat dotStar dollar) (cs ++ []) :=
    RMatch.cat (star_cls_of_all hnl') (RMatch.altL .eps)
  have hnp3 : RMatch np3 (c :: cs) := by
    have : RMatch np3 (([c] ++ []) ++ (cs ++ [])) := RMatch.cat hloop htail
    simpa using this
  have hmatch : pymatch np3 s = true := by
    rw [pymatch, rmatch_iff, hs]
    exact hnp3
  have hany : numbered_patterns.any (fun p => pymatch p s) = true :=
    List.any_eq_true.mpr ⟨np3, by simp [numbered_patterns], hmatch⟩
  simp [matches_heading_pattern, hany]

/-- C3 witness at a concrete letter-initial text. -/
theorem c3_numbered_shadowing_witness :
    ("Hello World".toList = 'H' :: "ello World".toList ∧
     (latinUpper 'H' || latinLower 'H') = true ∧ '\n' ∉ "Hello World".toList) ∧
    matches_heading_pattern "Hello World" "latin" = (true, "numbered") :=
  ⟨⟨by decide, by decide, by decide⟩,
   c3_numbered_shadowing_amended "Hello World" "latin" 'H' "ello World".toList
     (by decide) (by decide) (by decide)⟩

/-- C5: for every text that passes the non-heading filter and triggers
neither a decimal override nor the chapter-section rule, the classifier maps
the accumulated score to H1 exactly when it is at least 6, to H2 exactly on
4 and 5, to H3 exactly on 3 and to none below 3; at a title-case fragment
the boundary instances ratio 1.15 with bold (score 5), ratio 1.05 with bold
(score 4) and ratio 1.05 without bold (score 2) classify H2, H2 and none. -/
theorem c5_score_mapping :
    (∀ (text : String) (font_size : ℚ) (isBold : Bool)
        (avg_font_size max_font_size : ℚ) (language : String),
      is_likely_non_heading text = false →
      pymatch dec1RE text = false →
      pymatch dec2RE text = false →
      pymatch dec3RE text = false →
      (matches_heading_pattern text language).2 ≠ "chapter_section" →
      ((classify_heading_level text font_size isBold avg_font_size max_font_size
          language = some "H1" ↔
        6 ≤ headingScore text font_size isBold avg_font_size language) ∧
       (classify_heading_level text font_size isBold avg_font_size max_font_size
          language = some "H2" ↔
        4 ≤ headingScore text font_size isBold avg_font_size language ∧
          headingScore text font_size isBold avg_font_size language < 6) ∧
       (classify_heading_level text font_size isBold avg_font_size max_font_size
          language = some "H3" ↔
        3 ≤ headingScore text font_size isBold avg_font_size language ∧
          headingScore text font_size isBold avg_font_size language < 4) ∧
       (classify_heading_level text font_size isBold avg_font_size max_font_size
          language = none ↔
        headingScore text font_size isBold avg_font_size language < 3))) ∧
    classify_heading_level "Éducation nationale" 23 true 20 20 "latin" = some "H2" ∧
    classify_heading_level "Éducation nationale" 21 true 20 20 "latin" = some "H2" ∧
    classify_heading_level "Éducation nationale" 21 false 20 20 "latin" = none := by
  refine ⟨?_, by decide, by decide, by decide⟩
  intro text font_size isBold avg_font_size max_font_size language hf h1 h2 h3 hcs
  have hcs' : ((matches_heading_pattern text language).2 == "chapter_section") = false :=
    beq_eq_false_iff_ne.mpr hcs
  simp only [classify_heading_level, hf, h1, h2, h3, hcs', Bool.false_eq_true,
    if_false]
  set s := headingScore text font_size isBold avg_font_size language with hs
  refine ⟨?_, ?_, ?_, ?_⟩ <;> split_ifs <;> simp_all <;> omega

/-- C5 witness at the title-case boundary fragment with ratio 1.15 and
bold. -/
theorem c5_score_mapping_witness :
    (is_likely_non_heading "Éducation nationale" = false ∧
     pymatch dec1RE "Éducation nationale" = false ∧
     pymatch dec2RE "Éducation nationale" = false ∧
     pymatch dec3RE "Éducation nationale" = false ∧
     (matches_heading_pattern "Éducation nationale" "latin").2 ≠ "chapter_section") ∧
    (classify_heading_level "Éducation nationale" 23 true 20 20 "latin" = some "H2" ↔
      4 ≤ headingScore "Éducation nationale" 23 true 20 "latin" ∧
        headingScore "Éducation nationale" 23 true 20 "latin" < 6) :=
  ⟨⟨by decide, by decide, by decide, by decide, by decide⟩,
   ((c5_score_mapping.1 "Éducation nationale" 23 true 20 20 "latin" (by decide)
      (by decide) (by decide) (by decide) (by decide)).2.1)⟩

/-- C6: the non-heading filter returns true exactly when the lower-cased
text contains a stop word, or the length is below 3 or above 200, or the
text consists only of digits, whitespace, hyphens, slashes and periods;
consequently a text whose lower-cased form contains abstract never
classifies as a heading. -/
theorem c6_non_heading_filter :
    (∀ text : String,
      is_likely_non_heading text = true ↔
        ((∃ lw ∈ non_heading_words, ∃ word ∈ lw.2,
            subStr word.toList (pyLower text).toList = true) ∨
         (text.length < 3 ∨ text.length > 200) ∨
         (∀ c ∈ text.toList, numericChar c = true))) ∧
    (∀ (text : String) (font_size : ℚ) (isBold : Bool)
        (avg_font_size max_font_size : ℚ) (language : String),
      subStr "abstract".toList (pyLower text).toList = true →
      classify_heading_level text font_size isBold avg_font_size max_font_size
        language = none) := by
  constructor
  · intro text
    have hlen : text.length = text.toList.length := rfl
    simp only [is_likely_non_heading, Bool.or_eq_true, decide_eq_true_eq,
      List.any_eq_true, pymatch]
    constructor
    · rintro ((h | (h | h)) | h)
      · exact Or.inl (by simpa using h)
      · exact Or.inr (Or.inl (Or.inl h))
      · exact Or.inr (Or.inl (Or.inr h))
      · exact Or.inr (Or.inr (numericRE_iff.mp h).2)
    · rintro (h | (h | h) | h)
      · exact Or.inl (Or.inl (by simpa using h))
      · exact Or.inl (Or.inr (Or.inl h))
      · exact Or.inl (Or.inr (Or.inr h))
      · rcases eq_or_ne text.toList [] with he | he
        · refine Or.inl (Or.inr (Or.inl ?_))
          rw [hlen, he]
          simp
        · exact Or.inr (numericRE_iff.mpr ⟨he, h⟩)
  · intro text font_size isBold avg_font_size max_font_size language h
    have hmem : ("english",
        ["abstract", "introduction", "contents", "table of contents",
         "references", "bibliography"]) ∈ non_heading_words := by
      simp [non_heading_words]
    have hA : non_heading_words.any
        (fun lw => lw.2.any (fun word => subStr word.toList (pyLower text).toList)) = true :=
      List.any_eq_true.mpr ⟨_, hmem, List.any_eq_true.mpr ⟨"abstract", by simp, h⟩⟩
    have hfil : is_likely_non_heading text = true := by
      simp only [is_likely_non_heading]
      rw [hA]
      rfl
    simp [classify_heading_level, hfil]

/-- C6 witness: the text Project Abstract contains abstract after lowering
and is rejected. -/
theorem c6_non_heading_filter_witness :
    subStr "abstract".toList (pyLower "Project Abstract").toList = true ∧
    classify_heading_level "Project Abstract" 40 true 12 40 "latin" = none :=
  ⟨by decide, c6_non_heading_filter.2 "Project Abstract" 40 true 12 40 "latin" (by decide)⟩

/-- C4 counterexample: the best-ranked candidate Intro passes the three
skip checks named by the claim (filter, page marker, decimal numbering), yet
its text is not returned: the scan also requires the trimmed length to be
strictly between 5 and 150, and Intro has length 5. -/
theorem c4_title_scan_counterexample :
    (titleCands c4Blocks).head? = some (tBlk "Intro" 1 30 0 0) ∧
    is_likely_non_heading (pyStrip "Intro") = false ∧
    pymatch pageMarkerRE (pyStrip "Intro") = false ∧
    pymatch titleNumRE (pyStrip "Intro") = false ∧
    extract_title c4Blocks "latin" = "Annual Report" := by
  refine ⟨by decide, by decide, by decide, by decide, by decide⟩

/-- C4 amended: the scan of the ranked candidates has four skip conditions,
the three named by the claim and the length window; the first candidate
passing all four is returned.  In particular, when the best-ranked candidate
passes all four checks, its trimmed text is the title. -/
theorem c4_title_scan_amended (text_blocks : List Block) (language : String)
    (b : Block) (hb : (titleCands text_blocks).head? = some b)
    (h1 : is_likely_non_heading (pyStrip b.text) = false)
    (h2 : pymatch pageMarkerRE (pyStrip b.text) = false)
    (h3 : pymatch titleNumRE (pyStrip b.text) = false)
    (h4 : 5 < (pyStrip b.text).length)
    (h5 : (pyStrip b.text).length < 150) :
    extract_title text_blocks language = pyStrip b.text := by
  have hne : ¬ first_page_blocks_of text_blocks = [] := by
    intro he
    rw [titleCands, he] at hb
    simp [List.insertionSort] at hb
  obtain ⟨t, ht⟩ : ∃ t, titleCands text_blocks = b :: t := by
    cases hcand : titleCands text_blocks with
    | nil => rw [hcand] at hb; simp at hb
    | cons x xs =>
        rw [hcand] at hb
        simp only [List.head?_cons, Option.some.injEq] at hb
        exact ⟨xs, by rw [hb]⟩
  have hok : titleCandOk b = true := by
    simp [titleCandOk, h1, h2, h3, h4, h5]
  rw [extract_title, if_neg hne, ht]
  simp [List.find?_cons, hok]

/-- C4 witness: a fragment list whose best candidate passes all four
checks. -/
theorem c4_title_scan_witness :
    ((titleCands c4GoodBlocks).head? = some (tBlk "Annual Report" 1 20 0 10) ∧
     is_likely_non_heading (pyStrip "Annual Report") = false ∧
     pymatch pageMarkerRE (pyStrip "Annual Report") = false ∧
     pymatch titleNumRE (pyStrip "Annual Report") = false ∧
     5 < (pyStrip "Annual Report").length ∧ (pyStrip "Annual Report").length < 150) ∧
    extract_title c4GoodBlocks "latin" = pyStrip "Annual Report" :=
  ⟨⟨by decide, by decide, by decide, by decide, by decide, by decide⟩,
   c4_title_scan_amended c4GoodBlocks "latin" (tBlk "Annual Report" 1 20 0 10)
     (by decide) (by decide) (by decide) (by decide) (by decide) (by decide)⟩

/-! ## Invariants of the outline builder -/

theorem classify_text_ne_empty {font_size : ℚ} {isBold : Bool} {avg mx : ℚ}
    {language level : String} {t : String}
    (h : classify_heading_level t font_size isBold avg mx language = some level) :
    t ≠ "" := by
  intro he
  subst he
  have hf : is_likely_non_heading "" = true := by decide
  simp [classify_heading_level, hf] at h

theorem buildOutline_nodup (avg mx : ℚ) (lang : String) :
    ∀ (bs : List Block) (seen : List String),
      ((buildOutline avg mx lang bs seen).map HeadingEntry.text).Nodup ∧
      ∀ e ∈ buildOutline avg mx lang bs seen, e.text ∉ seen := by
  intro bs
  induction bs with
  | nil => intro seen; simp [buildOutline]
  | cons b rest ih =>
      intro seen
      simp only [buildOutline]
      by_cases hskip : (seen.contains (pyStrip b.text) || pyStrip b.text == "") = true
      · rw [if_pos hskip]
        exact ih seen
      · rw [if_neg hskip]
        have hcontains : seen.contains (pyStrip b.text) = false := by
          cases hc : seen.contains (pyStrip b.text)
          · rfl
          · exact absurd (by rw [hc]; rfl) hskip
        have hbs : pyStrip b.text ∉ seen := by simpa using hcontains
        cases hcl : classify_heading_level (pyStrip b.text) b.font_size
            (is_bold b.font_flags) avg mx lang with
        | none =>
            simp only [hcl]
            exact ih seen
        | some level =>
            simp only [hcl]
            constructor
            · simp only [List.map_cons]
              refine List.nodup_cons.mpr ⟨?_, (ih (pyStrip b.text :: seen)).1⟩
              intro hmem
              rcases List.mem_map.mp hmem with ⟨e, he, hetext⟩
              exact (ih (pyStrip b.text :: seen)).2 e he
                (hetext ▸ List.mem_cons_self _ _)
            · intro e he
              rcases List.mem_cons.mp he with rfl | he'
              · exact hbs
              · exact fun hx =>
                  (ih (pyStrip b.text :: seen)).2 e he' (List.mem_cons_of_mem _ hx)

theorem buildOutline_find (avg mx : ℚ) (lang : String) :
    ∀ (bs : List Block) (seen : List String) (e : HeadingEntry),
      e ∈ buildOutline avg mx lang bs seen →
      e.text ∉ seen ∧
      ∃ b level,
        bs.find? (acceptPred avg mx lang e.text) = some b ∧
        classify_heading_level (pyStrip b.text) b.font_size (is_bold b.font_flags)
          avg mx lang = some level ∧
        e = { level := level, text := pyStrip b.text, page := b.page } := by
  intro bs
  induction bs with
  | nil => intro seen e he; simp [buildOutline] at he
  | cons b rest ih =>
      intro seen e he
      simp only [buildOutline] at he
      by_cases hskip : (seen.contains (pyStrip b.text) || pyStrip b.text == "") = true
      · rw [if_pos hskip] at he
        obtain ⟨hnot, b', level, hfind, hcl, hee⟩ := ih seen e he
        have hetext : e.text = pyStrip b'.text := by rw [hee]
        have hene : e.text ≠ "" := by
          rw [hetext]
          exact classify_text_ne_empty hcl
        have hpred : acceptPred avg mx lang e.text b = false := by
          rcases Bool.or_eq_true_iff.mp hskip with hcont | hemp
          · by_cases heq : pyStrip b.text = e.text
            · have : e.text ∈ seen := by
                rw [← heq]
                simpa using hcont
              exact absurd this hnot
            · have hbeq : (pyStrip b.text == e.text) = false :=
                beq_eq_false_iff_ne.mpr heq
              simp [acceptPred, hbeq]
          · have hbe : pyStrip b.text = "" := by simpa using hemp
            have hneq : pyStrip b.text ≠ e.text := by
              rw [hbe]
              exact fun hx => hene hx.symm
            have hbeq : (pyStrip b.text == e.text) = false :=
              beq_eq_false_iff_ne.mpr hneq
            simp [acceptPred, hbeq]
        refine ⟨hnot, b', level, ?_, hcl, hee⟩
        simp only [List.find?_cons, hpred]
        exact hfind
      · rw [if_neg hskip] at he
        have hcontains : seen.contains (pyStrip b.text) = false := by
          cases hc : seen.contains (pyStrip b.text)
          · rfl
          · exact absurd (by rw [hc]; rfl) hskip
        have hbs : pyStrip b.text ∉ seen := by simpa using hcontains
        cases hcl : classify_heading_level (pyStrip b.text) b.font_size
            (is_bold b.font_flags) avg mx lang with
        | none =>
            simp only [hcl] at he
            obtain ⟨hnot, b', level, hfind, hcl', hee⟩ := ih seen e he
            refine ⟨hnot, b', level, ?_, hcl', hee⟩
            have hpred : acceptPred avg mx lang e.text b = false := by
              simp [acceptPred, hcl]
            simp only [List.find?_cons, hpred]
            exact hfind
        | some level =>
            simp only [hcl] at he
            rcases List.mem_cons.mp he with rfl | he'
            · refine ⟨hbs, b, level, ?_, hcl, rfl⟩
              have hpred : acceptPred avg mx lang
                  ({ level := level, text := pyStrip b.text, page := b.page } :
                    HeadingEntry).text b = true := by
                simp [acceptPred, hcl]
              simp only [List.find?_cons, hpred]
            · obtain ⟨hnot, b', level', hfind, hcl', hee⟩ :=
                ih (pyStrip b.text :: seen) e he'
              have hne : e.text ≠ pyStrip b.text := by
                intro hx
                exact hnot (hx ▸ List.mem_cons_self _ _)
              refine ⟨fun hx => hnot (List.mem_cons_of_mem _ hx), b', level', ?_, hcl', hee⟩
              have hpred : acceptPred avg mx lang e.text b = false := by
                have hbeq : (pyStrip b.text == e.text) = false :=
                  beq_eq_false_iff_ne.mpr (fun hx => hne hx.symm)
                simp [acceptPred, hbeq]
              simp only [List.find?_cons, hpred]
              exact hfind

/-- The outline of the final result is always the 100-element prefix of the
sorted accepted headings (the prefix of a list not longer than 100 is the
list itself). -/
theorem extract_outline_outline_eq (text_blocks : List Block) :
    (extract_outline text_blocks).outline = (sortedOutlineOf text_blocks).take 100 := by
  by_cases hempty : text_blocks = []
  · subst hempty
    simp [extract_outline, sortedOutlineOf, acceptedOutline, buildOutline,
      List.insertionSort]
  · rw [extract_outline, if_neg hempty]
    dsimp only
    split_ifs with hlen
    · rfl
    · exact (List.take_of_length_le (by omega)).symm

/-- C8: no two entries of the returned outline share the same text, and
every entry originates from the first fragment in scan order whose stripped
text equals the entry text and which the classifier accepts. -/
theorem c8_dedup_first_wins (text_blocks : List Block) :
    (((extract_outline text_blocks).outline.map HeadingEntry.text).Nodup) ∧
    ∀ e ∈ (extract_outline text_blocks).outline,
      ∃ b level,
        text_blocks.find? (acceptPred (avg_font_size_of text_blocks)
          (max_font_size_of text_blocks) (detect_language text_blocks) e.text) = some b ∧
        classify_heading_level (pyStrip b.text) b.font_size (is_bold b.font_flags)
          (avg_font_size_of text_blocks) (max_font_size_of text_blocks)
          (detect_language text_blocks) = some level ∧
        e = { level := level, text := pyStrip b.text, page := b.page } := by
  have hsub : (extract_outline text_blocks).outline.Sublist (sortedOutlineOf text_blocks) := by
    rw [extract_outline_outline_eq]
    exact List.take_sublist _ _
  have hperm : (sortedOutlineOf text_blocks).Perm (acceptedOutline text_blocks) :=
    List.perm_insertionSort _ _
  constructor
  · have h1 : ((acceptedOutline text_blocks).map HeadingEntry.text).Nodup :=
      (buildOutline_nodup _ _ _ text_blocks []).1
    have h2 : ((sortedOutlineOf text_blocks).map HeadingEntry.text).Nodup :=
      ((hperm.map _).nodup_iff).mpr h1
    exact List.Nodup.sublist (hsub.map _) h2
  · intro e he
    have he' : e ∈ acceptedOutline text_blocks :=
      (hperm.mem_iff).mp (List.Sublist.mem he hsub)
    exact (buildOutline_find _ _ _ text_blocks [] e he').2

/-- C8 witness: two fragments share the text 1.1 Alpha; the entry kept
carries the page of the first occurrence in scan order (page 2). -/
theorem c8_dedup_first_wins_witness :
    ({ level := "H2", text := "1.1 Alpha", page := 2 } : HeadingEntry) ∈
      (extract_outline c8Blocks).outline ∧
    ∃ b level,
      c8Blocks.find? (acceptPred (avg_font_size_of c8Blocks) (max_font_size_of c8Blocks)
        (detect_language c8Blocks)
        ({ level := "H2", text := "1.1 Alpha", page := 2 } : HeadingEntry).text) = some b ∧
      classify_heading_level (pyStrip b.text) b.font_size (is_bold b.font_flags)
        (avg_font_size_of c8Blocks) (max_font_size_of c8Blocks)
        (detect_language c8Blocks) = some level ∧
      ({ level := "H2", text := "1.1 Alpha", page := 2 } : HeadingEntry) =
        { level := level, text := pyStrip b.text, page := b.page } :=
  ⟨by decide, (c8_dedup_first_wins c8Blocks).2 _ (by decide)⟩

/-! ## The sort key is a total preorder -/

theorem strLe_total (a : List Char) : ∀ b : List Char,
    strLe a b = true ∨ strLe b a = true := by
  induction a with
  | nil => intro b; exact Or.inl rfl
  | cons x xs ih =>
      intro b
      cases b with
      | nil => exact Or.inr rfl
      | cons y ys =>
          rcases lt_trichotomy x y with h | h | h
          · left
            simp [strLe, h]
          · subst h
            rcases ih ys with h2 | h2
            · left
              simp [strLe, lt_irrefl, h2]
            · right
              simp [strLe, lt_irrefl, h2]
          · right
            simp [strLe, h]

theorem strLe_trans (a : List Char) : ∀ (b c : List Char),
    strLe a b = true → strLe b c = true → strLe a c = true := by
  induction a with
  | nil => intro b c _ _; rfl
  | cons x xs ih =>
      intro b c hab hbc
      cases b with
      | nil => simp [strLe] at hab
      | cons y ys =>
          cases c with
          | nil => simp [strLe] at hbc
          | cons z zs =>
              rcases lt_trichotomy x y with hxy | hxy | hxy
              · rcases lt_trichotomy y z with hyz | hyz | hyz
                · simp [strLe, lt_trans hxy hyz]
                · subst hyz
                  simp [strLe, hxy]
                · simp [strLe, not_lt_of_gt hyz, hyz] at hbc
              · subst hxy
                rcases lt_trichotomy x z with hxz | hxz | hxz
                · simp [strLe, hxz]
                · subst hxz
                  simp only [strLe, lt_irrefl, if_false] at hab hbc ⊢
                  exact ih ys zs hab hbc
                · simp [strLe, not_lt_of_gt hxz, hxz] at hbc
              · simp [strLe, not_lt_of_gt hxy, hxy] at hab

theorem entryRank_trans (a b c : HeadingEntry)
    (hab : entryRank a b) (hbc : entryRank b c) : entryRank a c := by
  rcases hab with h1 | ⟨h1, h1'⟩ <;> rcases hbc with h2 | ⟨h2, h2'⟩
  · exact Or.inl (lt_trans h1 h2)
  · exact Or.inl (h2 ▸ h1)
  · exact Or.inl (h1 ▸ h2)
  · exact Or.inr ⟨h1.trans h2, strLe_trans _ _ _ h1' h2'⟩

theorem entryRank_total (a b : HeadingEntry) : entryRank a b ∨ entryRank b a := by
  rcases lt_trichotomy a.page b.page with h | h | h
  · exact Or.inl (Or.inl h)
  · rcases strLe_total a.level.toList b.level.toList with hs | hs
    · exact Or.inl (Or.inr ⟨h, hs⟩)
    · exact Or.inr (Or.inr ⟨h.symm, hs⟩)
  · exact Or.inr (Or.inl h)

/-- C9: the returned outline is sorted ascending by page, with ties ordered
by the level strings compared lexicographically. -/
theorem c9_sort_invariant (text_blocks : List Block) (i j : ℕ)
    (hi : i < (extract_outline text_blocks).outline.length)
    (hj : j < (extract_outline text_blocks).outline.length)
    (hij : i < j) :
    ((extract_outline text_blocks).outline.get ⟨i, hi⟩).page <
        ((extract_outline text_blocks).outline.get ⟨j, hj⟩).page ∨
      (((extract_outline text_blocks).outline.get ⟨i, hi⟩).page =
          ((extract_outline text_blocks).outline.get ⟨j, hj⟩).page ∧
        strLe ((extract_outline text_blocks).outline.get ⟨i, hi⟩).level.toList
          ((extract_outline text_blocks).outline.get ⟨j, hj⟩).level.toList = true) := by
  have hsorted : (sortedOutlineOf text_blocks).Pairwise entryRank :=
    @List.sorted_insertionSort _ entryRank _ ⟨entryRank_total⟩ ⟨entryRank_trans⟩ _
  have hsub : (extract_outline text_blocks).outline.Sublist (sortedOutlineOf text_blocks) := by
    rw [extract_outline_outline_eq]
    exact List.take_sublist _ _
  have hp : (extract_outline text_blocks).outline.Pairwise entryRank :=
    List.Pairwise.sublist hsub hsorted
  have := List.pairwise_iff_getElem.mp hp i j hi hj hij
  simpa [List.get_eq_getElem, entryRank] using this

/-- C9 witness: two accepted fragments on pages 2 and 1 come back sorted. -/
theorem c9_sort_invariant_witness :
    0 < 1 ∧
    (((extract_outline c9Blocks).outline.get ⟨0, by decide⟩).page <
        ((extract_outline c9Blocks).outline.get ⟨1, by decide⟩).page ∨
      (((extract_outline c9Blocks).outline.get ⟨0, by decide⟩).page =
          ((extract_outline c9Blocks).outline.get ⟨1, by decide⟩).page ∧
        strLe ((extract_outline c9Blocks).outline.get ⟨0, by decide⟩).level.toList
          ((extract_outline c9Blocks).outline.get ⟨1, by decide⟩).level.toList = true)) :=
  ⟨by decide, c9_sort_invariant c9Blocks 0 1 (by decide) (by decide) (by decide)⟩

/-- C10: the returned outline never exceeds 100 entries, and it is always
the 100-element prefix of the sorted accepted headings (in particular, when
more than 100 headings are accepted, exactly the first 100 of the sorted
list are returned). -/
theorem c10_outline_cap (text_blocks : List Block) :
    (extract_outline text_blocks).outline.length ≤ 100 ∧
    (extract_outline text_blocks).outline = (sortedOutlineOf text_blocks).take 100 := by
  refine ⟨?_, extract_outline_outline_eq text_blocks⟩
  rw [extract_outline_outline_eq]
  simp [List.length_take]

end PdfSpec
